import Mathlib

/-!
A shallow embedding of the chord-diagram renderer of `main.go`
(`ChordDiagram.Plot`, `pointOnCircle`, `drawChord`), together with proofs of
the properties its specification states about it.

Modelling conventions:
* Go `float64` values are modelled as exact rationals `ℚ`; the properties at
  stake are exact arithmetic identities, not rounding behaviour.
* Every angle the renderer computes is a rational multiple of π
  (`angle = i * (2π/n)` and offsets by `π/3·step`, `π/2`, `π`), so draw
  operations record the rational coefficient `q` of π (the geometric angle
  being `q·π`).  The real-valued layout functions (`angleStep`,
  `centerAngle`, …) are defined from the same source formulas and related to
  the coefficients by `centerAngle_eq_pi_mul`.
* A render call is the pure function from the diagram and the canvas size to
  the ordered list of draw operations issued to the canvas; `SetLineWidth` /
  `SetColor` followed by `Stroke` are folded into the stroke operation that
  consumes them, and `FillText` carries its full style.
* Go's `nil` label slice is `none`; out-of-range slice reads (which panic in
  Go) are modelled by total `getD` reads, and `accessesInBounds` records
  which indexed reads the render call performs.
-/

set_option allowUnsafeReducibility true
attribute [local semireducible] Rat.add Rat.mul Rat.inv Rat.sub Rat.neg Rat.div Rat.blt Rat.floor Rat.instDecidableLt

namespace KubeNetflow

/-- RGBA colour with 8-bit channels, mirroring Go `color.RGBA`. -/
structure Rgba where
  r : ℕ
  g : ℕ
  b : ℕ
  a : ℕ
deriving DecidableEq

/-- A point in polar form about the canvas centre: a distance from the centre
and an angle, the angle stored as the rational coefficient of π (the
geometric angle is `angleCoef · π`).  `pointOnCircle` in `main.go` turns such
data into cartesian coordinates with `cos`/`sin`; the specification only
constrains the polar data, so the embedding records it directly. -/
structure Polar where
  dist : ℚ
  angleCoef : ℚ
deriving DecidableEq

/-- Horizontal text alignment (Go `draw.XAlign`); the renderer only centres. -/
inductive XAlign
  | left
  | center
  | right
deriving DecidableEq

/-- Vertical text alignment (Go `draw.YAlign`); the renderer only centres. -/
inductive YAlign
  | bottom
  | center
  | top
deriving DecidableEq

/-- One drawing primitive issued to the canvas.  Stroke styling
(`SetLineWidth`/`SetColor` followed by `Stroke` in the source) is folded into
the stroke operation that consumes it; angles are coefficients of π. -/
inductive DrawOp
  | arcStroke (radius startCoef endCoef width : ℚ) (color : Rgba)
  | fillText (color : Rgba) (fontSize rotCoef : ℚ) (xa : XAlign) (ya : YAlign) (pos : Polar) (text : String)
  | chordStroke (i j : ℕ) (startP endP : Polar) (width : ℚ) (color : Rgba)
deriving DecidableEq

/-- Is the operation a node-arc stroke? -/
def DrawOp.isArc : DrawOp → Bool
  | .arcStroke .. => true
  | _ => false

/-- Is the operation a text fill? -/
def DrawOp.isFill : DrawOp → Bool
  | .fillText .. => true
  | _ => false

/-- Is the operation a chord stroke? -/
def DrawOp.isChord : DrawOp → Bool
  | .chordStroke .. => true
  | _ => false

/-- The plotter value of `main.go`: flow matrix, labels (a Go `nil` slice is
`none`) and the colour function. -/
structure ChordDiagram where
  Flow : List (List ℚ)
  Labels : Option (List String)
  Color : ℕ → ℕ → Rgba

/-- `color.RGBA{100, 100, 100, 255}`, the node-arc stroke colour. -/
def arcGray : Rgba := ⟨100, 100, 100, 255⟩

/-- `color.Black` (opaque black), the foreground label colour. -/
def blackColor : Rgba := ⟨0, 0, 0, 255⟩

/-- `color.RGBA{255, 255, 255, 220}`, the label backplate colour. -/
def whiteBackplate : Rgba := ⟨255, 255, 255, 220⟩

/-- `origin := vg.Point{X: canvas.Size().X / 2, Y: canvas.Size().Y / 2}`. -/
def originOf (sx sy : ℚ) : ℚ × ℚ := (sx / 2, sy / 2)

/-- `radius := math.Min(float64(X), float64(Y)) * 0.35`. -/
def radiusOf (sx sy : ℚ) : ℚ := min sx sy * (35 / 100)

/-- Coefficient of π in `angleStep := 2 * math.Pi / float64(n)`. -/
def stepCoef (n : ℕ) : ℚ := 2 / n

/-- Coefficient of π in `angle := float64(i) * angleStep`. -/
def angleCoefQ (n i : ℕ) : ℚ := i * stepCoef n

/-- `angleStep := 2 * math.Pi / float64(n)` as a real number. -/
noncomputable def angleStep (n : ℕ) : ℝ := 2 * Real.pi / n

/-- `angle := float64(i) * angleStep`, the centre angle of node `i`. -/
noncomputable def centerAngle (n i : ℕ) : ℝ := i * angleStep n

/-- `startAngle := angle - angleStep/3`, the lower arc bound of node `i`. -/
noncomputable def arcStartAngle (n i : ℕ) : ℝ := centerAngle n i - angleStep n / 3

/-- `endAngle := angle + angleStep/3`, the upper arc bound of node `i`. -/
noncomputable def arcEndAngle (n i : ℕ) : ℝ := centerAngle n i + angleStep n / 3

/-- `pointOnCircle(origin, r, angle)`, kept in polar form about the centre. -/
def pointOnCircle (radius angleCoef : ℚ) : Polar := ⟨radius, angleCoef⟩

/-- One-decimal fixed-point rendering of a rational, modelling
`fmt.Sprintf("%.1f", x)` for the non-negative totals the renderer prints
(round to nearest tenth). -/
def fmtOneDec (q : ℚ) : String :=
  let t : ℤ := (q * 10 + 1 / 2).floor
  let m : ℕ := t.natAbs
  (if t < 0 then "-" else "") ++ toString (m / 10) ++ "." ++ toString (m % 10)

/-- `statsLabel := fmt.Sprintf("%.1f MB", totalBytes/1024/1024)`. -/
def statsLabel (totalBytes : ℚ) : String := fmtOneDec (totalBytes / 1024 / 1024) ++ " MB"

/-- `totalBytes`, the row-`i` sum
`for j := 0; j < n; j++ { totalBytes += c.Flow[i][j] }`.  Reads that would be
out of range (a Go panic) are modelled as 0; `accessesInBounds` captures the
in-range discipline. -/
def rowTotal (c : ChordDiagram) (i : ℕ) : ℚ :=
  ((List.range c.Flow.length).map fun j => (c.Flow.getD i []).getD j 0).sum

/-- The label-flip test `angle > math.Pi/2 && angle < 3*math.Pi/2`, stated on
the angle's coefficient of π (π·a > π/2 exactly when a > 1/2). -/
def flipTest (a : ℚ) : Bool := decide (1 / 2 < a) && decide (a < 3 / 2)

/-- The draw operations of one iteration of the node loop of
`ChordDiagram.Plot` (lines 73–124 of `main.go`): the node's arc, then — when
`c.Labels != nil` — backplate and foreground fills of the identity label at
`radius*1.07` rotated by the (possibly flipped) centre angle, and of the
aggregate label at `radius*1.15` rotated by the (possibly flipped) centre
angle plus π/2. -/
def nodeBlock (c : ChordDiagram) (radius : ℚ) (i : ℕ) : List DrawOp :=
  let n := c.Flow.length
  let a := angleCoefQ n i
  let arcOp := DrawOp.arcStroke radius (a - stepCoef n / 3) (a + stepCoef n / 3) 2 arcGray
  match c.Labels with
  | none => [arcOp]
  | some ls =>
      let basePos := pointOnCircle (radius * (107 / 100)) a
      let baseRotation := if flipTest a then a + 1 else a
      let labelRotation := if flipTest a then a + 1 / 2 + 1 else a + 1 / 2
      let labelPos := pointOnCircle (radius * (115 / 100)) a
      [arcOp,
       DrawOp.fillText whiteBackplate 12 baseRotation XAlign.center YAlign.center basePos (ls.getD i ""),
       DrawOp.fillText blackColor 12 baseRotation XAlign.center YAlign.center basePos (ls.getD i ""),
       DrawOp.fillText whiteBackplate 12 labelRotation XAlign.center YAlign.center labelPos (statsLabel (rowTotal c i)),
       DrawOp.fillText blackColor 12 labelRotation XAlign.center YAlign.center labelPos (statsLabel (rowTotal c i))]

/-- `maxFlow` computed at lines 126–133 of `main.go`: the largest matrix
entry (`0.0` for the empty matrix). -/
def maxFlow (flow : List (List ℚ)) : ℚ :=
  flow.foldl (fun m row => row.foldl (fun m v => if v > m then v else m) m) 0

/-- `rgba.A = uint8(math.Min(255, float64(rgba.A)+100))` in `drawChord`. -/
def boostAlpha (c : Rgba) : Rgba := { c with a := min 255 (c.a + 100) }

/-- `drawChord(canvas, origin, radius, i, j, n, weight, clr)`
(lines 152–179): a cubic curve between the circle points at the two node
angles, stroked with width `weight * 3` and the alpha-boosted colour. -/
def drawChord (radius : ℚ) (i j n : ℕ) (weight : ℚ) (clr : Rgba) : DrawOp :=
  DrawOp.chordStroke i j (pointOnCircle radius (angleCoefQ n i))
    (pointOnCircle radius (angleCoefQ n j)) (weight * 3) (boostAlpha clr)

/-- The chord pass (lines 135–142): for every matrix entry
`c.Flow[i][j] > 0`, one chord of weight `c.Flow[i][j] / maxFlow`. -/
def chordPass (c : ChordDiagram) (radius : ℚ) : List DrawOp :=
  let n := c.Flow.length
  let m := maxFlow c.Flow
  (List.range c.Flow.length).flatMap fun i =>
    (List.range (c.Flow.getD i []).length).flatMap fun j =>
      let v := (c.Flow.getD i []).getD j 0
      if v > 0 then [drawChord radius i j n (v / m) (c.Color i j)] else []

/-- `ChordDiagram.Plot` (lines 50–143 of `main.go`): the ordered sequence of
draw operations one render call issues against a canvas of size
`sx × sy` — the node loop (arc and labels per node) followed by the chord
pass. -/
def ChordDiagram.Plot (c : ChordDiagram) (sx sy : ℚ) : List DrawOp :=
  ((List.range c.Flow.length).flatMap fun i => nodeBlock c (radiusOf sx sy) i) ++
    chordPass c (radiusOf sx sy)

/-- The flow matrix is square: every row as long as the matrix itself. -/
def flowSquare (c : ChordDiagram) : Bool :=
  c.Flow.all fun row => row.length == c.Flow.length

/-- The labels are `nil` or at least as long as the matrix. -/
def labelsLongEnough (c : ChordDiagram) : Bool :=
  match c.Labels with
  | none => true
  | some ls => decide (c.Flow.length ≤ ls.length)

/-- Every indexed read the render call performs is in range: the label loop
reads `c.Labels[i]` for each `i < n` and, in its row sum, `c.Flow[i][j]` for
`i, j < n` (the maximum and chord loops iterate with `range` over the actual
rows and are in range by construction; when `c.Labels` is `nil` the label
loop body is skipped and no indexed read happens at all). -/
def accessesInBounds (c : ChordDiagram) : Bool :=
  match c.Labels with
  | none => true
  | some ls =>
      (List.range c.Flow.length).all fun i =>
        decide (i < ls.length) &&
          (List.range c.Flow.length).all fun j =>
            decide (j < (c.Flow.getD i []).length)

/-- The default colour policy of `main.go`:
`color.RGBA{R: uint8(30 * i), G: uint8(30 * j), B: 255, A: 200}`. -/
def defaultColor (i j : ℕ) : Rgba := ⟨30 * i % 256, 30 * j % 256, 255, 200⟩

/-- Scenario A of the specification: labels A, B, C and flow
`[[0,100,0],[0,0,50],[0,0,0]]`. -/
def scenarioA : ChordDiagram :=
  ⟨[[0, 100, 0], [0, 0, 50], [0, 0, 0]], some ["A", "B", "C"], defaultColor⟩

/-- Scenario B of the specification: two nodes, all-zero matrix. -/
def scenarioB : ChordDiagram := ⟨[[0, 0], [0, 0]], some ["a", "b"], defaultColor⟩

/-- A one-node diagram with a positive self-flow, the `N = 1` shape the
specification says a render call must reject. -/
def singleNode : ChordDiagram := ⟨[[1]], none, defaultColor⟩

/-- The `N = 0` diagram (empty matrix). -/
def emptyDiagram : ChordDiagram := ⟨[], none, defaultColor⟩

/-- A two-node diagram with one positive flow and `nil` labels. -/
def noLabels : ChordDiagram := ⟨[[0, 5], [0, 0]], none, defaultColor⟩

/-- A ragged diagram — a 2×1 matrix with two labels — whose row-sum loop
reads `Flow[0][1]` out of range. -/
def raggedDiagram : ChordDiagram := ⟨[[0], [0]], some ["a", "b"], defaultColor⟩

/-! ## Helper lemmas -/

/-- The real centre angle is π times its recorded rational coefficient. -/
theorem centerAngle_eq_pi_mul (n i : ℕ) :
    centerAngle n i = Real.pi * ((angleCoefQ n i : ℚ) : ℝ) := by
  unfold centerAngle angleStep angleCoefQ stepCoef
  push_cast
  ring

/-- No operation of a node block is a chord stroke. -/
theorem mem_nodeBlock_not_isChord {c : ChordDiagram} {r : ℚ} {i : ℕ} {op : DrawOp}
    (h : op ∈ nodeBlock c r i) : op.isChord = false := by
  cases hl : c.Labels with
  | none =>
      simp [nodeBlock, hl] at h
      subst h; rfl
  | some ls =>
      simp [nodeBlock, hl] at h
      rcases h with h | h | h | h | h <;> subst h <;> rfl

/-- Every operation of the chord pass is a chord stroke. -/
theorem mem_chordPass_isChord {c : ChordDiagram} {r : ℚ} {op : DrawOp}
    (h : op ∈ chordPass c r) : op.isChord = true := by
  simp only [chordPass, List.mem_flatMap, List.mem_range, List.mem_ite_nil_right,
    List.mem_singleton] at h
  obtain ⟨i, hi, j, hj, hv, rfl⟩ := h
  rfl

/-- A chord stroke is neither an arc stroke nor a text fill. -/
theorem isChord_not_isArc_isFill {op : DrawOp} (h : op.isChord = true) :
    op.isArc = false ∧ op.isFill = false := by
  cases op <;> simp_all [DrawOp.isChord, DrawOp.isArc, DrawOp.isFill]

/-- Membership characterization of the chord pass. -/
theorem chordStroke_mem_chordPass_iff {c : ChordDiagram} {r : ℚ} {i j : ℕ}
    {sP eP : Polar} {w : ℚ} {col : Rgba} :
    DrawOp.chordStroke i j sP eP w col ∈ chordPass c r ↔
      i < c.Flow.length ∧ j < (c.Flow.getD i []).length ∧
        0 < (c.Flow.getD i []).getD j 0 ∧
        sP = pointOnCircle r (angleCoefQ c.Flow.length i) ∧
        eP = pointOnCircle r (angleCoefQ c.Flow.length j) ∧
        w = (c.Flow.getD i []).getD j 0 / maxFlow c.Flow * 3 ∧
        col = boostAlpha (c.Color i j) := by
  simp only [chordPass, drawChord, List.mem_flatMap, List.mem_range,
    List.mem_ite_nil_right, List.mem_singleton, DrawOp.chordStroke.injEq]
  constructor
  · rintro ⟨a, ha, b, hb, hv, rfl, rfl, rfl, rfl, rfl, rfl⟩
    exact ⟨ha, hb, hv, rfl, rfl, rfl, rfl⟩
  · rintro ⟨hi, hj, hv, rfl, rfl, rfl, rfl⟩
    exact ⟨i, hi, j, hj, hv, rfl, rfl, rfl, rfl, rfl, rfl⟩

/-- A chord stroke belongs to the rendered sequence exactly when it belongs
to the chord pass. -/
theorem chordStroke_mem_Plot_iff {c : ChordDiagram} {sx sy : ℚ} {i j : ℕ}
    {sP eP : Polar} {w : ℚ} {col : Rgba} :
    DrawOp.chordStroke i j sP eP w col ∈ c.Plot sx sy ↔
      DrawOp.chordStroke i j sP eP w col ∈ chordPass c (radiusOf sx sy) := by
  unfold ChordDiagram.Plot
  rw [List.mem_append]
  constructor
  · rintro (h | h)
    · exfalso
      rw [List.mem_flatMap] at h
      obtain ⟨a, _, h⟩ := h
      have hfalse := mem_nodeBlock_not_isChord h
      simp [DrawOp.isChord] at hfalse
    · exact h
  · exact Or.inr

/-- Counting a filter over a flat map whose pieces all contribute `k`. -/
theorem length_filter_flatMap {α β : Type} (l : List α) (f : α → List β) (p : β → Bool)
    (k : ℕ) (h : ∀ x ∈ l, ((f x).filter p).length = k) :
    ((l.flatMap f).filter p).length = l.length * k := by
  induction l with
  | nil => simp
  | cons x xs ih =>
      rw [List.flatMap_cons, List.filter_append, List.length_append,
        h x (List.mem_cons_self x xs), ih (fun y hy => h y (List.mem_cons_of_mem x hy)),
        List.length_cons]
      ring

/-- Each node block contains exactly one arc stroke. -/
theorem nodeBlock_filter_isArc_length (c : ChordDiagram) (r : ℚ) (i : ℕ) :
    ((nodeBlock c r i).filter DrawOp.isArc).length = 1 := by
  cases hl : c.Labels <;> simp [nodeBlock, hl, DrawOp.isArc]

/-- With `nil` labels a node block contains no text fill. -/
theorem nodeBlock_filter_isFill_none (c : ChordDiagram) (r : ℚ) (i : ℕ)
    (hl : c.Labels = none) : (nodeBlock c r i).filter DrawOp.isFill = [] := by
  simp [nodeBlock, hl, DrawOp.isFill]

/-- With labels present a node block contains exactly four text fills. -/
theorem nodeBlock_filter_isFill_some_length (c : ChordDiagram) (r : ℚ) (i : ℕ)
    (ls : List String) (hl : c.Labels = some ls) :
    ((nodeBlock c r i).filter DrawOp.isFill).length = 4 := by
  simp [nodeBlock, hl, DrawOp.isFill]

/-- The chord pass contains no arc stroke. -/
theorem chordPass_filter_isArc (c : ChordDiagram) (r : ℚ) :
    (chordPass c r).filter DrawOp.isArc = [] := by
  rw [List.filter_eq_nil_iff]
  intro op hop
  simp [(isChord_not_isArc_isFill (mem_chordPass_isChord hop)).1]

/-- The chord pass contains no text fill. -/
theorem chordPass_filter_isFill (c : ChordDiagram) (r : ℚ) :
    (chordPass c r).filter DrawOp.isFill = [] := by
  rw [List.filter_eq_nil_iff]
  intro op hop
  simp [(isChord_not_isArc_isFill (mem_chordPass_isChord hop)).2]

/-- An all-zero matrix produces an empty chord pass: the `flow[i][j] > 0`
guard rejects every entry, so the weight division is never reached. -/
theorem chordPass_eq_nil_of_zero (c : ChordDiagram) (r : ℚ)
    (hz : ∀ row ∈ c.Flow, ∀ v ∈ row, v = (0 : ℚ)) : chordPass c r = [] := by
  unfold chordPass
  simp only [List.flatMap_eq_nil_iff, List.mem_range]
  intro i hi j hj
  have hrow : c.Flow.getD i [] ∈ c.Flow := by
    rw [List.getD_eq_getElem _ _ hi]
    exact List.getElem_mem hi
  have hv : (c.Flow.getD i []).getD j 0 ∈ c.Flow.getD i [] := by
    rw [List.getD_eq_getElem _ _ hj]
    exact List.getElem_mem hj
  have h0 : (c.Flow.getD i []).getD j 0 = 0 := hz _ hrow _ hv
  rw [h0]
  norm_num

/-- An arc stroke or a text fill is not a chord stroke. -/
theorem not_isChord_of_isArc_or_isFill {op : DrawOp}
    (h : op.isArc = true ∨ op.isFill = true) : op.isChord = false := by
  cases op <;> simp_all [DrawOp.isArc, DrawOp.isFill, DrawOp.isChord]

/-- In a concatenation whose left part refutes `p` and whose right part
satisfies it, a position refuting `p` comes before one satisfying it. -/
theorem append_index_lt {α : Type} (A B : List α) (p : α → Bool)
    (hA : ∀ a ∈ A, p a = false) (hB : ∀ b ∈ B, p b = true)
    (k l : ℕ) (hk : k < (A ++ B).length) (hl : l < (A ++ B).length)
    (hpk : p ((A ++ B).get ⟨k, hk⟩) = false) (hpl : p ((A ++ B).get ⟨l, hl⟩) = true) :
    k < l := by
  have hkA : k < A.length := by
    by_contra hge
    push_neg at hge
    have hmem : (A ++ B).get ⟨k, hk⟩ ∈ B := by
      rw [List.get_eq_getElem, List.getElem_append_right hge]
      exact List.getElem_mem _
    rw [hB _ hmem] at hpk
    simp at hpk
  have hlA : A.length ≤ l := by
    by_contra hlt
    push_neg at hlt
    have hmem : (A ++ B).get ⟨l, hl⟩ ∈ A := by
      rw [List.get_eq_getElem, List.getElem_append_left hlt]
      exact List.getElem_mem _
    rw [hA _ hmem] at hpl
    simp at hpl
  omega

/-- The flip test holds exactly when the real angle `π·a` lies in the open
interval `(π/2, 3π/2)`. -/
theorem flipTest_iff_pi (a : ℚ) :
    flipTest a = true ↔ Real.pi * (a : ℝ) ∈ Set.Ioo (Real.pi / 2) (3 * Real.pi / 2) := by
  have hpi := Real.pi_pos
  rw [Set.mem_Ioo]
  unfold flipTest
  rw [Bool.and_eq_true, decide_eq_true_eq, decide_eq_true_eq]
  have e1 : ((1 / 2 : ℚ) : ℝ) = 1 / 2 := by push_cast; ring
  have e2 : ((3 / 2 : ℚ) : ℝ) = 3 / 2 := by push_cast; ring
  constructor
  · rintro ⟨h1, h2⟩
    have h1r : ((1 / 2 : ℚ) : ℝ) < (a : ℝ) := by exact_mod_cast h1
    have h2r : (a : ℝ) < ((3 / 2 : ℚ) : ℝ) := by exact_mod_cast h2
    rw [e1] at h1r
    rw [e2] at h2r
    constructor
    · calc Real.pi / 2 = Real.pi * (1 / 2) := by ring
        _ < Real.pi * (a : ℝ) := (mul_lt_mul_left hpi).mpr h1r
    · calc Real.pi * (a : ℝ) < Real.pi * (3 / 2) := (mul_lt_mul_left hpi).mpr h2r
        _ = 3 * Real.pi / 2 := by ring
  · rintro ⟨h1, h2⟩
    have h1r : Real.pi * (1 / 2) < Real.pi * (a : ℝ) := by
      calc Real.pi * (1 / 2) = Real.pi / 2 := by ring
        _ < Real.pi * (a : ℝ) := h1
    have h2r : Real.pi * (a : ℝ) < Real.pi * (3 / 2) := by
      calc Real.pi * (a : ℝ) < 3 * Real.pi / 2 := h2
        _ = Real.pi * (3 / 2) := by ring
    have h1q : (1 / 2 : ℝ) < (a : ℝ) := (mul_lt_mul_left hpi).mp h1r
    have h2q : (a : ℝ) < 3 / 2 := (mul_lt_mul_left hpi).mp h2r
    rw [← e1] at h1q
    rw [← e2] at h2q
    exact ⟨by exact_mod_cast h1q, by exact_mod_cast h2q⟩

/-- Reading every position of a list with `getD` reproduces the list. -/
theorem map_getD_range {α : Type} (l : List α) (d : α) :
    ((List.range l.length).map fun j => l.getD j d) = l := by
  apply List.ext_getElem
  · simp
  · intro k h1 h2
    rw [List.getElem_map, List.getElem_range]
    exact List.getD_eq_getElem l d h2

/-- Every operation of a node block is in the rendered sequence. -/
theorem nodeBlock_subset_Plot {c : ChordDiagram} {sx sy : ℚ} {i : ℕ}
    (hi : i < c.Flow.length) {op : DrawOp} (hop : op ∈ nodeBlock c (radiusOf sx sy) i) :
    op ∈ c.Plot sx sy := by
  unfold ChordDiagram.Plot
  rw [List.mem_append, List.mem_flatMap]
  exact Or.inl ⟨i, List.mem_range.mpr hi, hop⟩

/-! ## Claim theorems -/

/-- Claim C1 (code bug in the source): `ChordDiagram.Plot` performs no
input-shape validation and has no failure channel at all.  For `N = 1` it
silently draws an arc and a degenerate self-chord; for `N = 0` it silently
returns with no draw operations.  It never "fails explicitly before any draw
operation". -/
theorem invalid_shape_renders_silently :
    singleNode.Plot 100 100 =
      [DrawOp.arcStroke 35 (-(2 / 3)) (2 / 3) 2 arcGray,
       DrawOp.chordStroke 0 0 ⟨35, 0⟩ ⟨35, 0⟩ 3 ⟨0, 0, 255, 255⟩] ∧
    emptyDiagram.Plot 100 100 = [] := ⟨by decide, by decide⟩

/-- Claim C8: rendering is deterministic — two render calls with equal flow
matrices, equal labels, the same colour function and canvases of equal size
issue the identical ordered sequence of draw operations. -/
theorem render_deterministic (c₁ c₂ : ChordDiagram) (sx sy : ℚ)
    (hf : c₁.Flow = c₂.Flow) (hl : c₁.Labels = c₂.Labels) (hc : c₁.Color = c₂.Color) :
    c₁.Plot sx sy = c₂.Plot sx sy := by
  have h : c₁ = c₂ := by
    cases c₁
    cases c₂
    simp_all
  rw [h]

/-- Witness for C8 at a concrete diagram. -/
theorem render_deterministic_witness : scenarioA.Plot 100 100 = scenarioA.Plot 100 100 :=
  render_deterministic scenarioA scenarioA 100 100 rfl rfl rfl

/-- Claim C10: when the flow matrix is square and the labels are `nil` or at
least as long as the matrix, every indexed read of the render call is in
range; without the precondition a read can be out of range, as on the ragged
2×1 matrix with two labels, whose row-sum loop reads `Flow[0][1]`. -/
theorem index_accesses_in_bounds :
    (∀ c : ChordDiagram, flowSquare c = true → labelsLongEnough c = true →
      accessesInBounds c = true) ∧
    accessesInBounds raggedDiagram = false := by
  constructor
  · intro c hsq hlen
    simp only [flowSquare, List.all_eq_true, beq_iff_eq] at hsq
    cases hl : c.Labels with
    | none => simp [accessesInBounds, hl]
    | some ls =>
        have hlen' : c.Flow.length ≤ ls.length := by
          simpa [labelsLongEnough, hl] using hlen
        simp only [accessesInBounds, hl, List.all_eq_true, List.mem_range,
          Bool.and_eq_true, decide_eq_true_eq]
        intro i hi
        refine ⟨lt_of_lt_of_le hi hlen', fun j hj => ?_⟩
        have hmem : c.Flow.getD i [] ∈ c.Flow := by
          rw [List.getD_eq_getElem _ _ hi]
          exact List.getElem_mem hi
        rw [hsq _ hmem]
        exact hj
  · decide

/-- Witness for C10 at a concrete well-shaped diagram. -/
theorem index_accesses_in_bounds_witness : accessesInBounds scenarioA = true :=
  index_accesses_in_bounds.1 scenarioA (by decide) (by decide)

/-- Claim C2: on an all-zero matrix the render call succeeds, drawing one arc
per node and, when labels are present, the four label fills of every node; it
draws zero chords and the `flow[i][j] / maxWeight` division is never reached
(the whole chord pass is empty because the `> 0` guard rejects every
entry). -/
theorem zero_matrix_renders_no_chords (c : ChordDiagram) (sx sy : ℚ)
    (hz : ∀ row ∈ c.Flow, ∀ v ∈ row, v = (0 : ℚ)) :
    ((c.Plot sx sy).filter DrawOp.isArc).length = c.Flow.length ∧
    chordPass c (radiusOf sx sy) = [] ∧
    (c.Plot sx sy).filter DrawOp.isChord = [] ∧
    (∀ ls : List String, c.Labels = some ls →
      ((c.Plot sx sy).filter DrawOp.isFill).length = 4 * c.Flow.length) := by
  have hnil := chordPass_eq_nil_of_zero c (radiusOf sx sy) hz
  have hplot : c.Plot sx sy =
      (List.range c.Flow.length).flatMap fun i => nodeBlock c (radiusOf sx sy) i := by
    unfold ChordDiagram.Plot
    rw [hnil, List.append_nil]
  refine ⟨?_, hnil, ?_, ?_⟩
  · rw [hplot, length_filter_flatMap _ _ _ 1 (fun i _ => nodeBlock_filter_isArc_length c _ i),
      List.length_range, Nat.mul_one]
  · rw [hplot, List.filter_eq_nil_iff]
    intro op hop
    rw [List.mem_flatMap] at hop
    obtain ⟨i, _, hop⟩ := hop
    simp [mem_nodeBlock_not_isChord hop]
  · intro ls hls
    rw [hplot,
      length_filter_flatMap _ _ _ 4 (fun i _ => nodeBlock_filter_isFill_some_length c _ i ls hls),
      List.length_range]
    ring

/-- Witness for C2 on Scenario B (two nodes, all-zero matrix). -/
theorem zero_matrix_renders_no_chords_witness :
    ((scenarioB.Plot 100 100).filter DrawOp.isArc).length = 2 ∧
    (scenarioB.Plot 100 100).filter DrawOp.isChord = [] := by
  have h := zero_matrix_renders_no_chords scenarioB 100 100 (by decide)
  exact ⟨h.1, h.2.2.1⟩

/-- Claim C9: with `nil` labels the render call still succeeds, drawing every
node's arc and a chord for every positive in-range entry, but issues no text
fill at all — neither identity nor aggregate labels. -/
theorem nil_labels_render (c : ChordDiagram) (sx sy : ℚ) (h : c.Labels = none) :
    (c.Plot sx sy).filter DrawOp.isFill = [] ∧
    ((c.Plot sx sy).filter DrawOp.isArc).length = c.Flow.length ∧
    (∀ i j : ℕ, i < c.Flow.length → j < (c.Flow.getD i []).length →
      0 < (c.Flow.getD i []).getD j 0 →
      drawChord (radiusOf sx sy) i j c.Flow.length
          ((c.Flow.getD i []).getD j 0 / maxFlow c.Flow) (c.Color i j) ∈ c.Plot sx sy) := by
  refine ⟨?_, ?_, ?_⟩
  · unfold ChordDiagram.Plot
    rw [List.filter_append, chordPass_filter_isFill, List.append_nil, List.filter_flatMap,
      List.flatMap_eq_nil_iff]
    intro i _
    exact nodeBlock_filter_isFill_none c _ i h
  · unfold ChordDiagram.Plot
    rw [List.filter_append, chordPass_filter_isArc, List.append_nil,
      length_filter_flatMap _ _ _ 1 (fun i _ => nodeBlock_filter_isArc_length c _ i),
      List.length_range, Nat.mul_one]
  · intro i j hi hj hv
    show DrawOp.chordStroke i j (pointOnCircle (radiusOf sx sy) (angleCoefQ c.Flow.length i))
        (pointOnCircle (radiusOf sx sy) (angleCoefQ c.Flow.length j))
        ((c.Flow.getD i []).getD j 0 / maxFlow c.Flow * 3) (boostAlpha (c.Color i j))
        ∈ c.Plot sx sy
    rw [chordStroke_mem_Plot_iff, chordStroke_mem_chordPass_iff]
    exact ⟨hi, hj, hv, rfl, rfl, rfl, rfl⟩

/-- Witness for C9 on a two-node diagram with one positive flow. -/
theorem nil_labels_render_witness :
    (noLabels.Plot 100 100).filter DrawOp.isFill = [] ∧
    drawChord (radiusOf 100 100) 0 1 noLabels.Flow.length
        ((noLabels.Flow.getD 0 []).getD 1 0 / maxFlow noLabels.Flow) (noLabels.Color 0 1)
      ∈ noLabels.Plot 100 100 :=
  ⟨(nil_labels_render noLabels 100 100 rfl).1,
   (nil_labels_render noLabels 100 100 rfl).2.2 0 1 (by decide) (by decide) (by decide)⟩

/-- Claim C7: in the rendered operation sequence every arc stroke and every
text fill precedes every chord stroke — no chord is drawn before an arc or
label. -/
theorem arcs_labels_before_chords (c : ChordDiagram) (sx sy : ℚ) (p q : ℕ)
    (hp : p < (c.Plot sx sy).length) (hq : q < (c.Plot sx sy).length)
    (hap : ((c.Plot sx sy).get ⟨p, hp⟩).isArc = true ∨
      ((c.Plot sx sy).get ⟨p, hp⟩).isFill = true)
    (hcq : ((c.Plot sx sy).get ⟨q, hq⟩).isChord = true) :
    p < q := by
  have hflat : ∀ op ∈ (List.range c.Flow.length).flatMap
      fun i => nodeBlock c (radiusOf sx sy) i, DrawOp.isChord op = false := by
    intro op hop
    rw [List.mem_flatMap] at hop
    obtain ⟨i, _, hop⟩ := hop
    exact mem_nodeBlock_not_isChord hop
  exact append_index_lt _ _ DrawOp.isChord hflat
    (fun b hb => mem_chordPass_isChord hb) p q hp hq
    (not_isChord_of_isArc_or_isFill hap) hcq

/-- Witness for C7: in the two-node one-flow diagram the arc at position 0
precedes the chord at position 2. -/
theorem arcs_labels_before_chords_witness :
    (noLabels.Plot 100 100).length = 3 ∧ (0 : ℕ) < 2 := by
  refine ⟨by decide, ?_⟩
  have h1 : 0 < (noLabels.Plot 100 100).length := by decide
  have h2 : 2 < (noLabels.Plot 100 100).length := by decide
  have h3 : ((noLabels.Plot 100 100).get ⟨0, h1⟩).isArc = true := rfl
  have h4 : ((noLabels.Plot 100 100).get ⟨2, h2⟩).isChord = true := rfl
  exact arcs_labels_before_chords noLabels 100 100 0 2 h1 h2 (Or.inl h3) h4

/-- Claim C3: with a positive maximum entry, a chord is emitted for the
ordered pair `(i, j)` exactly when `flow[i][j] > 0`; its stroke width is
`flow[i][j] / maxWeight * 3`, which is strictly increasing in the entry and
exactly 3 points at the maximum; on Scenario A's matrix exactly the chords
0→1 (width 3) and 1→2 (width 3/2) are emitted. -/
theorem chord_emission_and_width (c : ChordDiagram) (sx sy : ℚ)
    (hm : 0 < maxFlow c.Flow) :
    (∀ i j : ℕ, i < c.Flow.length → j < (c.Flow.getD i []).length →
      ((∃ sP eP : Polar, ∃ w : ℚ, ∃ col : Rgba,
          DrawOp.chordStroke i j sP eP w col ∈ c.Plot sx sy) ↔
        0 < (c.Flow.getD i []).getD j 0)) ∧
    (∀ (i j : ℕ) (sP eP : Polar) (w : ℚ) (col : Rgba),
      DrawOp.chordStroke i j sP eP w col ∈ c.Plot sx sy →
      w = (c.Flow.getD i []).getD j 0 / maxFlow c.Flow * 3) ∧
    (∀ v₁ v₂ : ℚ, v₁ < v₂ →
      v₁ / maxFlow c.Flow * 3 < v₂ / maxFlow c.Flow * 3) ∧
    maxFlow c.Flow / maxFlow c.Flow * 3 = 3 ∧
    (scenarioA.Plot 100 100).filter DrawOp.isChord =
      [DrawOp.chordStroke 0 1 ⟨35, 0⟩ ⟨35, 2 / 3⟩ 3 ⟨0, 30, 255, 255⟩,
       DrawOp.chordStroke 1 2 ⟨35, 2 / 3⟩ ⟨35, 4 / 3⟩ (3 / 2) ⟨30, 60, 255, 255⟩] := by
  refine ⟨?_, ?_, ?_, ?_, by decide⟩
  · intro i j hi hj
    constructor
    · rintro ⟨sP, eP, w, col, hmem⟩
      rw [chordStroke_mem_Plot_iff, chordStroke_mem_chordPass_iff] at hmem
      exact hmem.2.2.1
    · intro hv
      refine ⟨pointOnCircle (radiusOf sx sy) (angleCoefQ c.Flow.length i),
        pointOnCircle (radiusOf sx sy) (angleCoefQ c.Flow.length j),
        (c.Flow.getD i []).getD j 0 / maxFlow c.Flow * 3,
        boostAlpha (c.Color i j), ?_⟩
      rw [chordStroke_mem_Plot_iff, chordStroke_mem_chordPass_iff]
      exact ⟨hi, hj, hv, rfl, rfl, rfl, rfl⟩
  · intro i j sP eP w col hmem
    rw [chordStroke_mem_Plot_iff, chordStroke_mem_chordPass_iff] at hmem
    exact hmem.2.2.2.2.2.1
  · intro v₁ v₂ hv
    have h3 : (0 : ℚ) < 3 / maxFlow c.Flow := by positivity
    calc v₁ / maxFlow c.Flow * 3 = v₁ * (3 / maxFlow c.Flow) := by ring
      _ < v₂ * (3 / maxFlow c.Flow) := mul_lt_mul_of_pos_right hv h3
      _ = v₂ / maxFlow c.Flow * 3 := by ring
  · rw [div_self (ne_of_gt hm), one_mul]

/-- Witness for C3 on Scenario A. -/
theorem chord_emission_and_width_witness :
    0 < maxFlow scenarioA.Flow ∧
    (scenarioA.Plot 100 100).filter DrawOp.isChord =
      [DrawOp.chordStroke 0 1 ⟨35, 0⟩ ⟨35, 2 / 3⟩ 3 ⟨0, 30, 255, 255⟩,
       DrawOp.chordStroke 1 2 ⟨35, 2 / 3⟩ ⟨35, 4 / 3⟩ (3 / 2) ⟨30, 60, 255, 255⟩] :=
  ⟨by decide, (chord_emission_and_width scenarioA 100 100 (by decide)).2.2.2.2⟩

/-- Claim C4: the layout puts node `i` at centre angle `i·(2π/N)` on the
circle of radius `0.35·min(width, height)` about the canvas centre, with arc
bounds `centreAngle ± angleStep/3`; for `N > 1` the centre angle is strictly
increasing in `i` and consecutive arc intervals are disjoint. -/
theorem layout_angles_radius (n : ℕ) (hn : 1 < n) :
    (∀ sx sy : ℚ, radiusOf sx sy = 35 / 100 * min sx sy) ∧
    (∀ sx sy : ℚ, originOf sx sy = (sx / 2, sy / 2)) ∧
    (∀ i : ℕ, centerAngle n i = i * (2 * Real.pi / n)) ∧
    (∀ i : ℕ, arcStartAngle n i = centerAngle n i - angleStep n / 3 ∧
      arcEndAngle n i = centerAngle n i + angleStep n / 3) ∧
    (∀ i j : ℕ, i < j → centerAngle n i < centerAngle n j) ∧
    (∀ i : ℕ, arcEndAngle n i < arcStartAngle n (i + 1)) := by
  have hn0 : (0 : ℝ) < n := by
    have : 0 < n := by omega
    exact_mod_cast this
  have hstep : 0 < angleStep n := by
    unfold angleStep
    positivity
  refine ⟨fun sx sy => by unfold radiusOf; ring, fun sx sy => rfl,
    fun i => rfl, fun i => ⟨rfl, rfl⟩, ?_, ?_⟩
  · intro i j hij
    unfold centerAngle
    exact mul_lt_mul_of_pos_right (by exact_mod_cast hij) hstep
  · intro i
    unfold arcEndAngle arcStartAngle centerAngle
    push_cast
    nlinarith [hstep]

/-- Witness for C4 at `N = 4`. -/
theorem layout_angles_radius_witness :
    (1 : ℕ) < 4 ∧ arcEndAngle 4 0 < arcStartAngle 4 1 :=
  ⟨by decide, (layout_angles_radius 4 (by decide)).2.2.2.2.2 0⟩

/-- Claim C5: node `i`'s identity label is drawn at `radius·1.07` rotated by
the centre angle, its aggregate label at `radius·1.15` rotated by the centre
angle plus π/2, both centred on their anchor point; each rotation gains
exactly one extra π exactly when the centre angle lies in `(π/2, 3π/2)`. -/
theorem label_rotation_flip (c : ChordDiagram) (sx sy : ℚ) (ls : List String)
    (hls : c.Labels = some ls) (i : ℕ) (hi : i < c.Flow.length) :
    DrawOp.fillText blackColor 12
        (if flipTest (angleCoefQ c.Flow.length i) then angleCoefQ c.Flow.length i + 1
         else angleCoefQ c.Flow.length i)
        XAlign.center YAlign.center
        (pointOnCircle (radiusOf sx sy * (107 / 100)) (angleCoefQ c.Flow.length i))
        (ls.getD i "") ∈ c.Plot sx sy ∧
    DrawOp.fillText blackColor 12
        (if flipTest (angleCoefQ c.Flow.length i) then angleCoefQ c.Flow.length i + 1 / 2 + 1
         else angleCoefQ c.Flow.length i + 1 / 2)
        XAlign.center YAlign.center
        (pointOnCircle (radiusOf sx sy * (115 / 100)) (angleCoefQ c.Flow.length i))
        (statsLabel (rowTotal c i)) ∈ c.Plot sx sy ∧
    (flipTest (angleCoefQ c.Flow.length i) = true ↔
      centerAngle c.Flow.length i ∈ Set.Ioo (Real.pi / 2) (3 * Real.pi / 2)) ∧
    (∀ a : ℚ, Real.pi * ((if flipTest a then a + 1 else a : ℚ) : ℝ) =
      Real.pi * (a : ℝ) + (if flipTest a then Real.pi else 0)) ∧
    (∀ a : ℚ, Real.pi * ((if flipTest a then a + 1 / 2 + 1 else a + 1 / 2 : ℚ) : ℝ) =
      Real.pi * (a : ℝ) + Real.pi / 2 + (if flipTest a then Real.pi else 0)) := by
  refine ⟨?_, ?_, ?_, ?_, ?_⟩
  · apply nodeBlock_subset_Plot hi
    simp [nodeBlock, hls]
  · apply nodeBlock_subset_Plot hi
    simp [nodeBlock, hls]
  · rw [centerAngle_eq_pi_mul]
    exact flipTest_iff_pi _
  · intro a
    cases hft : flipTest a <;> simp [hft] <;> ring
  · intro a
    cases hft : flipTest a <;> simp [hft] <;> ring

/-- Witness for C5 on Scenario A's node 2 (whose centre angle `4π/3` lies in
the flip interval). -/
theorem label_rotation_flip_witness :
    flipTest (angleCoefQ scenarioA.Flow.length 2) = true ↔
      centerAngle scenarioA.Flow.length 2 ∈ Set.Ioo (Real.pi / 2) (3 * Real.pi / 2) :=
  (label_rotation_flip scenarioA 100 100 ["A", "B", "C"] rfl 2 (by decide)).2.2.1

/-- Claim C6: node `i`'s aggregate label text is the sum of row `i` divided
by 1024 twice and formatted to one decimal place with the `" MB"` suffix; the
renderer draws that text at `radius·1.15`, and a row sum of 12 911 000 bytes
formats as `"12.3 MB"`. -/
theorem aggregate_label_format (c : ChordDiagram) (sx sy : ℚ) (ls : List String)
    (hls : c.Labels = some ls) (i : ℕ) (hi : i < c.Flow.length) :
    (∀ q : ℚ, statsLabel q = fmtOneDec (q / 1024 / 1024) ++ " MB") ∧
    (∀ row : List ℚ, c.Flow.getD i [] = row → row.length = c.Flow.length →
      rowTotal c i = row.sum) ∧
    DrawOp.fillText blackColor 12
        (if flipTest (angleCoefQ c.Flow.length i) then angleCoefQ c.Flow.length i + 1 / 2 + 1
         else angleCoefQ c.Flow.length i + 1 / 2)
        XAlign.center YAlign.center
        (pointOnCircle (radiusOf sx sy * (115 / 100)) (angleCoefQ c.Flow.length i))
        (statsLabel (rowTotal c i)) ∈ c.Plot sx sy ∧
    statsLabel 12911000 = "12.3 MB" := by
  refine ⟨fun q => rfl, ?_, ?_, by decide⟩
  · intro row hrow hlen
    unfold rowTotal
    rw [hrow, ← hlen, map_getD_range]
  · apply nodeBlock_subset_Plot hi
    simp [nodeBlock, hls]

/-- Witness for C6 on Scenario A. -/
theorem aggregate_label_format_witness : statsLabel 12911000 = "12.3 MB" :=
  (aggregate_label_format scenarioA 100 100 ["A", "B", "C"] rfl 0 (by decide)).2.2.2

end KubeNetflow
